import Mathlib

/-!
Verification development for the valid-person-finder service (`src/main.py`).

The program answers "who holds role R at company C" by expanding the role
into query variants, querying search providers, extracting candidate person
names from snippets/pages, and ranking candidates by source credibility.

Shallow embedding conventions:
* Python strings are Lean `String`s; Python byte-level details do not arise.
* Python floats (all values are small decimal constants) are embedded as `ℚ`,
  so the scoring arithmetic is exact.
* The external boundaries (ddgs search provider, Brave HTTP API,
  requests+BeautifulSoup page fetching, the optional spaCy NER model and the
  `re` regex engine used by `extract_name_from_text`) are parameters of the
  pipeline: the pipeline-level theorems hold for every behaviour of those
  collaborators.  In-repo pure functions (`build_queries`, `is_likely_name`,
  `source_credibility`, the merge/dedup in `search_all_engines`, the query
  loop, the scoring loop, the cache check-then-populate logic) are translated
  line by line.
-/

namespace ValidPersonFinder

/-! ## Python string primitives (ASCII-faithful models) -/

/-- Whitespace characters recognised by Python `str.split()` /
`str.strip()` (ASCII subset; the program only handles Latin-script text). -/
def pyIsSpace (c : Char) : Bool :=
  c == ' ' || c == '\t' || c == '\n' || c == '\r' || c == '\x0b' || c == '\x0c'

/-- Accumulating splitter behind `pySplit`. -/
def splitWsGo (cur : List Char) : List Char → List (List Char)
  | [] => if cur.isEmpty then [] else [cur.reverse]
  | c :: cs =>
    if pyIsSpace c then
      if cur.isEmpty then splitWsGo [] cs else cur.reverse :: splitWsGo [] cs
    else splitWsGo (c :: cur) cs

/-- Python `s.split()`: split on whitespace runs, dropping empty pieces. -/
def pySplit (s : String) : List String :=
  (splitWsGo [] s.toList).map fun l => String.mk l

/-- Accumulating splitter behind `pySplitOn`. -/
def splitSepGo (sep : Char) (cur : List Char) : List Char → List (List Char)
  | [] => [cur.reverse]
  | c :: cs =>
    if c == sep then cur.reverse :: splitSepGo sep [] cs
    else splitSepGo sep (c :: cur) cs

/-- Python `s.split(sep)` for a one-character separator: keeps empty pieces. -/
def pySplitOn (s : String) (sep : Char) : List String :=
  (splitSepGo sep [] s.toList).map fun l => String.mk l

/-- Python `s.strip()` (ASCII whitespace). -/
def pyStrip (s : String) : String :=
  String.mk (((s.toList.dropWhile pyIsSpace).reverse.dropWhile pyIsSpace).reverse)

/-- Test `leadsWith needle hay`: `hay` starts with `needle`. -/
def leadsWith : List Char → List Char → Bool
  | [], _ => true
  | _ :: _, [] => false
  | a :: as, h :: hs => a == h && leadsWith as hs

/-- Contiguous containment of `needle` in the character list. -/
def containsChars (needle : List Char) : List Char → Bool
  | [] => needle.isEmpty
  | h :: hs => leadsWith needle (h :: hs) || containsChars needle hs

/-- Python `needle in hay` for strings (contiguous substring test). -/
def strContains (needle hay : String) : Bool :=
  containsChars needle.toList hay.toList

/-- Python `str.upper()` restricted to ASCII letters. -/
def asciiUpper (s : String) : String :=
  String.mk (s.toList.map fun c =>
    if 'a' ≤ c && c ≤ 'z' then Char.ofNat (c.toNat - 32) else c)

/-- Python `str.lower()` restricted to ASCII letters. -/
def asciiLower (s : String) : String :=
  String.mk (s.toList.map fun c =>
    if 'A' ≤ c && c ≤ 'Z' then Char.ofNat (c.toNat + 32) else c)

def isAsciiUpperChar (c : Char) : Bool := 'A' ≤ c && c ≤ 'Z'

def isAsciiAlphaChar (c : Char) : Bool :=
  isAsciiUpperChar c || ('a' ≤ c && c ≤ 'z')

/-! ## Query Builder (`build_queries`, main.py lines 44-72) -/

/-- The fixed role-alias table (main.py lines 46-56).  Note the keys are
stored exactly as written in the source: four of them (`Founder`,
`Director`, `Manager`, `President`) are mixed-case while lookups always use
the uppercased role, so those four entries can never match. -/
def aliases : List (String × List String) :=
  [("CEO", ["Chief Executive Officer", "Chief Executive"]),
   ("CTO", ["Chief Technology Officer", "Chief Technical Officer"]),
   ("CFO", ["Chief Financial Officer"]),
   ("CMO", ["Chief Marketing Officer", "Marketing Director"]),
   ("COO", ["Chief Operating Officer"]),
   ("Founder", ["Co-Founder", "Founding Partner"]),
   ("Director", ["Managing Director", "Executive Director"]),
   ("Manager", ["General Manager", "Senior Manager"]),
   ("President", ["President & CEO"])]

/-- Python `aliases.get(k, [])`. -/
def aliasLookup (k : String) : List String :=
  (((aliases.find? fun p => p.1 == k).map Prod.snd).getD [])

/-- The variant list `role_variants` as accumulated in main.py lines 57-63:
`[role] + aliases.get(role.upper(), [])`, extended, when the role contains
`"&"`, by the aliases of each stripped-and-uppercased part. -/
def role_variants (role : String) : List String :=
  let base := [role] ++ aliasLookup (asciiUpper role)
  if strContains "&" role then
    base ++ (((pySplitOn role '&').map pyStrip).map
      fun p => aliasLookup (asciiUpper p)).flatten
  else base

/-- The five query templates emitted per role variant
(main.py lines 66-71, f-strings). -/
def templates (company r : String) : List String :=
  [company ++ " " ++ r,
   "Who is the " ++ r ++ " of " ++ company,
   company ++ " " ++ r ++ " LinkedIn",
   company ++ " leadership " ++ r,
   company ++ " about " ++ r]

/-- Function `build_queries` (main.py lines 44-72).  Python's final
`list(set(queries))` has unspecified order; it is modelled by `List.dedup`,
which also returns each distinct query exactly once.  All properties proved
about it are order-insensitive. -/
def build_queries (company role : String) : List String :=
  (((role_variants role).map (templates company)).flatten).dedup

/-- The alias count `N` for a role: number of alias-table entries gathered
for the role (direct uppercased lookup plus the `"&"`-part lookups), i.e.
everything in `role_variants` beyond the role itself. -/
def numAliases (role : String) : Nat :=
  (role_variants role).length - 1

/-! ## Name-shape filter (`is_likely_name`, main.py lines 134-146) -/

def nameBlacklist : List String :=
  ["Chief", "Executive", "Officer", "Founder", "Director", "Manager",
   "Google", "Company", "Inc", "Ltd", "Corporation", "The", "And", "Of",
   "President", "Chairman", "Board", "Member", "Head", "Lead"]

/-- Python `re.match(r'^[A-Z][a-zA-Z.]*$', w)`: first character an ASCII
uppercase letter, remaining characters ASCII letters or periods.  (The `$`
newline subtlety cannot arise: words produced by `str.split()` contain no
whitespace.) -/
def wordShape (w : String) : Bool :=
  match w.toList with
  | [] => false
  | c :: rest => isAsciiUpperChar c && rest.all fun d => isAsciiAlphaChar d || d == '.'

/-- Filter `is_likely_name` (main.py lines 134-146): at least two words, every word
matches the shape regex (the source loop returns `False` on the first
failing word, equivalent to the `all` below), no word in the blacklist. -/
def is_likely_name (candidate : String) : Bool :=
  let words := pySplit candidate
  if words.length < 2 then false
  else if !(words.all wordShape) then false
  else if words.any (fun w => nameBlacklist.contains w) then false
  else true

/-! ## Credibility scorer (`source_credibility`, main.py lines 217-232) -/

/-- The netloc of a URL as `urllib.parse.urlparse` extracts it for
`scheme://host/...`-shaped URLs: the text between the first `"://"`
(or a leading `"//"`) and the next `/`, `?` or `#`; empty when the URL has
no authority component. -/
def upToDelim : List Char → List Char
  | [] => []
  | c :: cs => if c == '/' || c == '?' || c == '#' then [] else c :: upToDelim cs

/-- Finds the text following the first occurrence of `"://"`. -/
def afterSchemeMark : List Char → Option (List Char)
  | ':' :: '/' :: '/' :: rest => some rest
  | _ :: cs => afterSchemeMark cs
  | [] => none

/-- Modelled from `urlparse(url).netloc` for the URL shapes this program
sees (absolute `scheme://...` URLs and scheme-relative `//...` URLs);
other strings have no authority component and yield `""`. -/
def netloc (url : String) : String :=
  match afterSchemeMark url.toList with
  | some rest => String.mk (upToDelim rest)
  | none =>
    match url.toList with
    | '/' :: '/' :: rest => String.mk (upToDelim rest)
    | _ => ""

def trustedNews : List String :=
  ["bloomberg", "reuters", "wsj", "nytimes", "bbc", "forbes", "techcrunch",
   "cnbc", "ft.com", "economist", "apnews"]

/-- Scorer `source_credibility` (main.py lines 217-232).  Every check is a Python
`in` substring test against the lowercased netloc, including the
`.gov`/`.edu` check (`any(x in domain for x in [".gov", ".edu"])`). -/
def source_credibility (url : String) : ℚ :=
  let domain := asciiLower (netloc url)
  if strContains "linkedin.com" domain then 0.95
  else if strContains "wikipedia.org" domain then 0.9
  else if [".gov", ".edu"].any (fun x => strContains x domain) then 0.85
  else if trustedNews.any (fun t => strContains t domain) then 0.8
  else 0.6

/-! ## Search results and the aggregator (`search_all_engines`, lines 118-132) -/

/-- A provider result record.  ddgs results carry `title`/`href`/`body`;
the Brave adapter builds the same keys (main.py lines 103-108); a missing
key is `none`.  The separate `url` field models `res.get("url")`, consulted
as a fallback in `search_all_engines` and in the main loop. -/
structure SearchResult where
  title : Option String := none
  href : Option String := none
  body : Option String := none
  url : Option String := none
deriving Repr, DecidableEq

/-- Python truthiness filter for an optional string: `None` and `""` are
falsy. -/
def truthyStr : Option String → Option String
  | some s => if s = "" then none else some s
  | none => none

/-- Python `r.get("href") or r.get("url")` followed by the truthiness test
(`if url ...`): the first truthy of the two fields, `none` when both are
falsy. -/
def getUrl (r : SearchResult) : Option String :=
  match truthyStr r.href with
  | some s => some s
  | none => truthyStr r.url

/-- The seen-set dedup loop of `search_all_engines` (main.py lines 125-132):
drop records with no truthy URL, keep the first record for each URL,
preserve order. -/
def dedupByUrl : List SearchResult → List String → List SearchResult
  | [], _ => []
  | r :: rs, seen =>
    match getUrl r with
    | none => dedupByUrl rs seen
    | some u =>
      if seen.contains u then dedupByUrl rs seen
      else r :: dedupByUrl rs (u :: seen)

/-! ## The process-wide cache (`cache`, `cache_key`, lines 35-41, 74-116, 195-215)

`search_duckduckgo` / `fetch_page_text` check the cache, and on a miss call
the external collaborator and populate the cache.  The collaborators are
parameters: `ddgRaw q n = none` models an exception inside the `DDGS`
block (caught, yielding `[]`, not cached); `fetchRaw url = some (status,
text)` models a completed `requests.get` whose visible-text extraction
(BeautifulSoup, an external library) produced `text`, `none` models a
raised exception. -/

structure Env where
  /-- Value of `search_duckduckgo query` (failures already absorbed to `[]`). -/
  ddg : String → List SearchResult
  /-- Value of `search_brave query`. -/
  brave : String → List SearchResult
  /-- Whether `BRAVE_API_KEY` is configured (`USE_BRAVE`). -/
  useBrave : Bool
  /-- Value of `fetch_page_text url` (failures already absorbed to `""`). -/
  pageText : String → String
  /-- Value of `extract_name_from_text text company role`. -/
  extract : String → Option String

/-- Aggregator `search_all_engines` (main.py lines 118-132): primary results, then
secondary results when enabled, deduplicated by URL. -/
def search_all_engines (env : Env) (query : String) : List SearchResult :=
  dedupByUrl (env.ddg query ++ (if env.useBrave then env.brave query else [])) []

/-- The accumulated `name_candidates` mapping: a `defaultdict(list)` in
insertion order, each name mapped to its ordered `(url, credibility)`
contributions. -/
abbrev Candidates := List (String × List (String × ℚ))

/-- Accumulation `name_candidates[name].append((url, cred))` on a `defaultdict(list)`:
append to the existing entry, or add a new entry at the end. -/
def addCandidate : Candidates → String → String × ℚ → Candidates
  | [], name, contrib => [(name, [contrib])]
  | (n, s) :: rest, name, contrib =>
    if n = name then (n, s ++ [contrib]) :: rest
    else (n, s) :: addCandidate rest name contrib

/-- The per-result body of the main loop (main.py lines 243-261): skip
results with no truthy URL; try the snippet first (`continue` on success);
otherwise fetch the page and try the full text.  `truthyStr` models the
`if snippet:` / `if name:` / `if page_text:` truthiness tests. -/
def processResult (env : Env) (cs : Candidates) (r : SearchResult) : Candidates :=
  match getUrl r with
  | none => cs
  | some url =>
    let snippet := (truthyStr r.body).getD ""
    let snippetName := if snippet ≠ "" then truthyStr (env.extract snippet) else none
    match snippetName with
    | some name => addCandidate cs name (url, source_credibility url)
    | none =>
      let page := env.pageText url
      if page ≠ "" then
        match truthyStr (env.extract page) with
        | some name => addCandidate cs name (url, source_credibility url)
        | none => cs
      else cs

/-- Process one query's full result set (main.py lines 242-261). -/
def processQuery (env : Env) (cs : Candidates) (query : String) : Candidates :=
  (search_all_engines env query).foldl (processResult env) cs

/-- Total contribution count across all candidate names
(`sum(len(v) for v in name_candidates.values())`). -/
def totalContribs (cs : Candidates) : Nat :=
  (cs.map fun p => p.2.length).sum

/-- The early-stop condition checked after each query (main.py line 264). -/
def stopCheck (cs : Candidates) : Bool :=
  decide (2 ≤ cs.length) && decide (3 ≤ totalContribs cs)

/-- The query loop (main.py lines 240-265) with its `break`; also returns
the list of queries actually issued. -/
def runLoop (env : Env) : List String → Candidates → Candidates × List String
  | [], cs => (cs, [])
  | q :: qs, cs =>
    let cs' := processQuery env cs q
    if stopCheck cs' then (cs', [q])
    else
      let rest := runLoop env qs cs'
      (rest.1, q :: rest.2)

/-! ## Scoring (`search`, main.py lines 270-296) -/

def commonFirstNames : List String := ["John", "Jane", "David", "Sarah"]

def newsTokens : List String := ["/news/", "/article/", "bloomberg", "reuters"]

/-- The per-candidate final score as computed inside the scoring loop
(main.py lines 276-288) given the carried-over `best_url`:
`base_avg = mean of credibilities`, `multiplier = 1.0 + 0.1*len`, `*= 0.9`
for a two-word name with a common first name, `*= 1.05` when the carried
`best_url` contains a news token, capped at `1.0`. -/
def candidateScore (best_url name : String) (sources : List (String × ℚ)) : ℚ :=
  let base_avg := (sources.map Prod.snd).sum / (sources.length : ℚ)
  let m0 : ℚ := 1 + (sources.length : ℚ) * 0.1
  let m1 :=
    match pySplit name with
    | [a, _] => if commonFirstNames.contains a then m0 * 0.9 else m0
    | _ => m0
  let m2 := if newsTokens.any (fun t => strContains t best_url) then m1 * 1.05 else m1
  min (base_avg * m2) 1

/-- Running best across the scoring loop. -/
structure RankState where
  best_name : Option String := none
  best_score : ℚ := 0
  best_url : String := ""
deriving Repr, DecidableEq

/-- Python `max(sources, key=lambda x: x[1])`: first element of maximal
credibility (strictly greater replaces).  The `[]` case cannot arise in the
program (every accumulated list is non-empty). -/
def maxBySnd : List (String × ℚ) → String × ℚ
  | [] => ("", 0)
  | x :: xs => xs.foldl (fun acc y => if acc.2 < y.2 then y else acc) x

/-- One iteration of the scoring loop (main.py lines 274-293): update the
running best on a strictly greater final score. -/
def scoreStep (st : RankState) (nc : String × List (String × ℚ)) : RankState :=
  let final_score := candidateScore st.best_url nc.1 nc.2
  if st.best_score < final_score then
    { best_name := some nc.1, best_score := final_score,
      best_url := (maxBySnd nc.2).1 }
  else st

/-- The whole scoring loop over the accumulated candidates. -/
def pickBest (cs : Candidates) : RankState :=
  cs.foldl scoreStep {}

/-- Python `round(x, 2)` modelled as rational rounding to two decimal
places (the float banker's-rounding tie behaviour is irrelevant to every
claim, which only bound the result). -/
def round2 (q : ℚ) : ℚ := (round (q * 100) : ℚ) / 100

/-! ## The endpoint (`search`, main.py lines 234-314) -/

/-- The successful response record (main.py lines 303-310).  The JSON keys
are recorded separately in `answer_keys`; note the role is returned under
the key `"title"`. -/
structure Answer where
  first_name : String
  last_name : String
  title : String
  company : String
  source_url : String
  confidence : ℚ
deriving Repr, DecidableEq

/-- The keys of the JSON object returned on success, in source order
(main.py lines 303-310). -/
def answer_keys : List String :=
  ["first_name", "last_name", "title", "company", "source_url", "confidence"]

/-- Outcomes of one `/search` invocation: the two structured error bodies
(main.py lines 268 and 296), a successful answer, and `failure` for an
exception reaching the outer handler (HTTP 500, main.py lines 312-314). -/
inductive SearchOutcome where
  | noSource
  | noValidName
  | answer (a : Answer)
  | failure
deriving Repr, DecidableEq

/-- The `/search` endpoint body (main.py lines 234-314): build queries, run
the query loop with early stop, return the `noSource` error when nothing
accumulated, otherwise score and pick the best; `if not best_name` catches
both `None` and `""`; splitting the winner with no tokens would raise
`IndexError` (`failure`). -/
def search (env : Env) (company role : String) : SearchOutcome :=
  let queries := build_queries company role
  let cs := (runLoop env queries []).1
  if cs.isEmpty then .noSource
  else
    let st := pickBest cs
    match st.best_name with
    | none => .noValidName
    | some best =>
      if best = "" then .noValidName
      else
        match pySplit best with
        | [] => .failure
        | f :: restParts =>
          .answer
            { first_name := f,
              last_name := if restParts.length ≥ 1 then String.intercalate " " restParts else "",
              title := role,
              company := company,
              source_url := st.best_url,
              confidence := round2 st.best_score }

/-! ## Spec-side definitions

These follow the wording of the specification (for refinement comparisons
with the source-side definitions above). -/

/-- Whether `suffix` is a suffix of `hay` (string ends-with test, for the spec's
".gov or .edu suffix" wording). -/
def endsWithStr (suffix hay : String) : Bool :=
  leadsWith suffix.toList.reverse hay.toList.reverse

/-- Credibility table as the claim states it: `.gov`/`.edu` checked as a
domain *suffix*, everything else a containment test, same order. -/
def spec_credibility_suffix (url : String) : ℚ :=
  let domain := asciiLower (netloc url)
  if strContains "linkedin.com" domain then 0.95
  else if strContains "wikipedia.org" domain then 0.9
  else if endsWithStr ".gov" domain || endsWithStr ".edu" domain then 0.85
  else if trustedNews.any (fun t => strContains t domain) then 0.8
  else 0.6

/-- Credibility table with the `.gov`/`.edu` check amended to substring
containment (what the source actually computes). -/
def spec_credibility_contains (url : String) : ℚ :=
  let domain := asciiLower (netloc url)
  if strContains "linkedin.com" domain then 0.95
  else if strContains "wikipedia.org" domain then 0.9
  else if strContains ".gov" domain || strContains ".edu" domain then 0.85
  else if trustedNews.any (fun t => strContains t domain) then 0.8
  else 0.6

/-- The name-shape filter as the claim states it: at least 2 words, every
word matches the shape, and no word is blacklisted. -/
def spec_likely_name (s : String) : Bool :=
  let ws := pySplit s
  decide (2 ≤ ws.length) && ws.all wordShape
    && ws.all (fun w => !(nameBlacklist.contains w))

/-- The final-score formula as the claim states it: arithmetic-mean base
times a product of the three multiplier factors, capped at 1. -/
def spec_final_score (best_url name : String) (S : List (String × ℚ)) : ℚ :=
  let base := (S.map Prod.snd).sum / (S.length : ℚ)
  let mult := (1 + 0.1 * (S.length : ℚ))
    * (if (pySplit name).length = 2
          && commonFirstNames.contains ((pySplit name).headD "") then 0.9 else 1)
    * (if newsTokens.any (fun t => strContains t best_url) then 1.05 else 1)
  min (base * mult) 1

/-- Merge-and-dedup as the spec states it: drop results without a URL,
keep the first occurrence of each URL, preserve order (later duplicates are
filtered away). -/
def spec_merge : List SearchResult → List SearchResult
  | [] => []
  | r :: rs =>
    match getUrl r with
    | none => spec_merge rs
    | some u => r :: spec_merge (rs.filter fun x => !(getUrl x == some u))
termination_by l => l.length
decreasing_by
  all_goals simp_wf
  all_goals try exact Nat.lt_succ_of_le (List.length_filter_le _ _)

/-! ## Concrete instances used by witnesses and examples -/

/-- A provider result whose snippet names Acme's CEO. -/
def demoRes : SearchResult :=
  { title := some "Acme leadership", href := some "https://example.com/team",
    body := some "Acme CEO Alice Wong" }

/-- Environment in which every query returns `demoRes` and the extractor
recognises its snippet. -/
def demoEnv : Env :=
  { ddg := fun _ => [demoRes], brave := fun _ => [], useBrave := false,
    pageText := fun _ => "",
    extract := fun t => if t = "Acme CEO Alice Wong" then some "Alice Wong" else none }

/-- The answer the demo environment produces for (Acme, CEO). -/
def demoAnswer : Answer :=
  { first_name := "Alice", last_name := "Wong", title := "CEO",
    company := "Acme", source_url := "https://example.com/team", confidence := 1 }

/-- Environment in which every provider yields no results. -/
def emptyEnv : Env :=
  { ddg := fun _ => [], brave := fun _ => [], useBrave := false,
    pageText := fun _ => "", extract := fun _ => none }

/-- Environment whose single query response carries three snippets naming
two distinct people (so the early-stop threshold is met after one query). -/
def stopEnv : Env :=
  { ddg := fun _ =>
      [{ href := some "https://a.example.com/1", body := some "s1" },
       { href := some "https://a.example.com/2", body := some "s2" },
       { href := some "https://a.example.com/3", body := some "s3" }],
    brave := fun _ => [], useBrave := false, pageText := fun _ => "",
    extract := fun t =>
      if t = "s1" then some "Alice Wong"
      else if t = "s2" then some "Bob Chen"
      else if t = "s3" then some "Bob Chen"
      else none }

/-- Candidate A of the documented ranking example: one 0.95 contribution. -/
def exCandA : String × List (String × ℚ) :=
  ("Alice Wong", [("https://example.com/a", 0.95)])

/-- Candidate B of the documented ranking example: three 0.6 contributions. -/
def exCandB : String × List (String × ℚ) :=
  ("Bob Chen",
   [("https://example.com/b1", 0.6), ("https://example.com/b2", 0.6),
    ("https://example.com/b3", 0.6)])

/-! ## Helper lemmas -/

lemma all_not_eq_not_any {α : Type} (l : List α) (p : α → Bool) :
    (l.all fun a => !p a) = !l.any p := by
  induction l with
  | nil => rfl
  | cons h t ih => simp [List.all_cons, List.any_cons, ih]

/-! ## Claim C4 -/

/-- C4 counterexample: on `http://www.education.com/about` the code scores
0.85 (the domain `www.education.com` *contains* `".edu"`), while the
claim's suffix reading yields the 0.60 floor (the domain does not *end* in
`.gov`/`.edu` and matches no earlier rule). -/
theorem claim_c4_counterexample :
    source_credibility "http://www.education.com/about" = 0.85 ∧
    spec_credibility_suffix "http://www.education.com/about" = 0.6 := by
  constructor <;> with_unfolding_all rfl

/-- C4 (amended): `source_credibility` implements the ordered first-match
table linkedin.com → 0.95, wikipedia.org → 0.90, domain *containing*
`.gov` or `.edu` → 0.85, trusted-news token → 0.80, default 0.60, all as
substring checks on the lowercased netloc. -/
theorem claim_c4_credibility_table :
    ∀ url, source_credibility url = spec_credibility_contains url := by
  intro url
  unfold source_credibility spec_credibility_contains
  simp [List.any_cons, List.any_nil]

/-! ## Claim C5 -/

/-- C5: `is_likely_name` accepts a string iff it splits into at least two
words, every word starts with an ASCII uppercase letter followed by
letters/periods only, and no word is blacklisted; in particular
"John Smith" is accepted, "Chief Officer" is rejected (blacklist), and
"O'Brien Smith" is rejected (apostrophe fails the shape regex). -/
theorem claim_c5_is_likely_name :
    (∀ s, is_likely_name s = spec_likely_name s) ∧
    is_likely_name "John Smith" = true ∧
    is_likely_name "Chief Officer" = false ∧
    is_likely_name "O\x27Brien Smith" = false := by
  refine ⟨?_, by decide, by decide, by decide⟩
  intro s
  simp only [is_likely_name, spec_likely_name, all_not_eq_not_any]
  by_cases hlen : (pySplit s).length < 2
  · have h2 : ¬ (2 ≤ (pySplit s).length) := by omega
    simp [hlen, h2]
  · have h2 : 2 ≤ (pySplit s).length := by omega
    cases hall : (pySplit s).all wordShape <;>
      cases hany : (pySplit s).any (fun w => nameBlacklist.contains w) <;>
        simp [hlen, h2, hall, hany]

/-! ## Claim C1 -/

/-- C1: the scoring loop computes, for every candidate given the
carried-over best-so-far URL, final = min(base × multiplier, 1) with base
the arithmetic mean of the credibilities and multiplier
(1 + 0.1·|S|) · (0.9 when a two-word name starts with a common first name)
· (1.05 when the carried URL contains a news token); and on the documented
example (A: one 0.95 source; B: three 0.6 sources; no news-token URLs)
B scores 0.78, A scores 1 (capped), and A wins in either accumulation
order. -/
theorem claim_c1_scoring_formula :
    (∀ best_url name S, candidateScore best_url name S = spec_final_score best_url name S) ∧
    candidateScore "" exCandB.1 exCandB.2 = 0.78 ∧
    candidateScore "https://example.com/a" exCandB.1 exCandB.2 = 0.78 ∧
    candidateScore "" exCandA.1 exCandA.2 = 1 ∧
    candidateScore "https://example.com/b1" exCandA.1 exCandA.2 = 1 ∧
    (pickBest [exCandA, exCandB]).best_name = some "Alice Wong" ∧
    (pickBest [exCandB, exCandA]).best_name = some "Alice Wong" := by
  refine ⟨?_, by with_unfolding_all rfl, by with_unfolding_all rfl,
    by with_unfolding_all rfl, by with_unfolding_all rfl,
    by with_unfolding_all rfl, by with_unfolding_all rfl⟩
  intro best_url name S
  unfold candidateScore spec_final_score
  rcases h : pySplit name with _ | ⟨a, _ | ⟨b, _ | ⟨c, t⟩⟩⟩ <;>
    simp only [h, List.length_nil, List.length_cons, List.headD_cons] <;>
    split_ifs <;> (try simp_all) <;> ring_nf

/-! ## Claim C2 -/

/-- If every query yields no results, no candidate is ever accumulated. -/
lemma runLoop_of_no_results (env : Env) (h : ∀ q, search_all_engines env q = []) :
    ∀ (l : List String) (cs : Candidates), (runLoop env l cs).1 = cs := by
  intro l
  induction l with
  | nil => intro cs; rfl
  | cons q qs ih =>
    intro cs
    have hq : processQuery env cs q = cs := by
      unfold processQuery
      rw [h q]
      rfl
    unfold runLoop
    rw [hq]
    by_cases hs : stopCheck cs
    · simp [hs]
    · simp [hs, ih]

/-- C2: when every issued query yields zero search results, the endpoint
returns the structured "No credible source found" error (and in
particular no exception escapes: the outcome is this value, not
`failure`). -/
theorem claim_c2_empty_results_no_source :
    ∀ (env : Env) (company role : String),
      (∀ q, search_all_engines env q = []) →
      search env company role = SearchOutcome.noSource := by
  intro env company role h
  simp only [search, runLoop_of_no_results env h]
  rfl

/-- C2 witness: with both providers returning nothing, (Acme, CEO) yields
the "No credible source found" outcome. -/
theorem claim_c2_witness :
    search emptyEnv "Acme" "CEO" = SearchOutcome.noSource :=
  claim_c2_empty_results_no_source emptyEnv "Acme" "CEO" (fun _ => rfl)

/-! ## Claim C7 -/

/-- C7: once, after some query's full result set has been processed, the
accumulated candidates contain at least 2 distinct names and at least 3
total contributions, the loop stops: no further query is issued. -/
theorem claim_c7_early_stop :
    ∀ (env : Env) (cs : Candidates) (q : String) (qs : List String),
      stopCheck (processQuery env cs q) = true →
      (runLoop env (q :: qs) cs).2 = [q] := by
  intro env cs q qs h
  unfold runLoop
  simp [h]

/-- C7 witness: one query yielding two distinct names with three total
contributions stops the loop after the first of two queries. -/
theorem claim_c7_witness :
    (runLoop stopEnv ["acme ceo", "who is the ceo of acme"] []).2 = ["acme ceo"] :=
  claim_c7_early_stop stopEnv [] "acme ceo" ["who is the ceo of acme"]
    (by with_unfolding_all rfl)

/-! ## Claim C8 -/

/-- The seen-set dedup loop equals the spec's first-occurrence-wins
description, restricted to the results whose URL is not already seen. -/
lemma dedupByUrl_eq_spec_merge :
    ∀ (l : List SearchResult) (seen : List String),
      dedupByUrl l seen = spec_merge (l.filter fun r =>
        match getUrl r with
        | some u => !(seen.contains u)
        | none => true)
  | [], seen => by simp [dedupByUrl, spec_merge]
  | r :: rs, seen => by
    cases hu : getUrl r with
    | none =>
      rw [List.filter_cons_of_pos (by simp [hu])]
      have hrw : spec_merge (r :: rs.filter fun x =>
          match getUrl x with
          | some u => !(seen.contains u)
          | none => true) = spec_merge (rs.filter fun x =>
          match getUrl x with
          | some u => !(seen.contains u)
          | none => true) := by
        rw [spec_merge]
        simp [hu]
      rw [hrw]
      simp only [dedupByUrl, hu]
      exact dedupByUrl_eq_spec_merge rs seen
    | some u =>
      by_cases hs : seen.contains u = true
      · rw [List.filter_cons_of_neg (by simp [hu]; simpa using hs)]
        simp only [dedupByUrl, hu]
        rw [if_pos hs]
        exact dedupByUrl_eq_spec_merge rs seen
      · rw [List.filter_cons_of_pos (by simp [hu]; simpa using hs)]
        have hrw : spec_merge (r :: rs.filter fun x =>
            match getUrl x with
            | some w => !(seen.contains w)
            | none => true) = r :: spec_merge ((rs.filter fun x =>
            match getUrl x with
            | some w => !(seen.contains w)
            | none => true).filter fun x => !(getUrl x == some u)) := by
          rw [spec_merge]
          simp [hu]
        rw [hrw]
        simp only [dedupByUrl, hu]
        rw [if_neg hs, dedupByUrl_eq_spec_merge rs (u :: seen), List.filter_filter]
        congr 2
        apply List.filter_congr
        intro x _
        cases hx : getUrl x with
        | none => simp [hx]
        | some v => simp [hx, Bool.not_or, Bool.and_comm, Bool.beq_eq_decide_eq]

/-- The dedup loop only ever drops elements: its output is an
order-preserving subsequence of its input. -/
lemma dedupByUrl_sublist :
    ∀ (l : List SearchResult) (seen : List String),
      (dedupByUrl l seen).Sublist l
  | [], _ => List.nil_sublist []
  | r :: rs, seen => by
    cases hu : getUrl r with
    | none =>
      simp only [dedupByUrl, hu]
      exact (dedupByUrl_sublist rs seen).cons r
    | some u =>
      by_cases hs : seen.contains u = true
      · simp only [dedupByUrl, hu]
        rw [if_pos hs]
        exact (dedupByUrl_sublist rs seen).cons r
      · simp only [dedupByUrl, hu]
        rw [if_neg hs]
        exact (dedupByUrl_sublist rs (u :: seen)).cons₂ r

/-- C8: for every query, `search_all_engines` is exactly the spec's merge:
primary results followed by secondary results (when enabled), results
without a truthy URL dropped, first occurrence of each URL kept, relative
order preserved (the output is a subsequence of the concatenation). -/
theorem claim_c8_merge_dedup :
    ∀ (env : Env) (q : String),
      search_all_engines env q =
        spec_merge (env.ddg q ++ if env.useBrave then env.brave q else []) ∧
      (search_all_engines env q).Sublist
        (env.ddg q ++ if env.useBrave then env.brave q else []) := by
  intro env q
  constructor
  · unfold search_all_engines
    rw [dedupByUrl_eq_spec_merge]
    congr 1
    apply List.filter_eq_self.mpr
    intro r _
    cases hx : getUrl r <;> simp [hx]
  · exact dedupByUrl_sublist _ _

/-! ## Claim C6 -/

/-- Emitting five templates per variant gives `5 × #variants` raw queries. -/
lemma flatten_templates_length (c : String) :
    ∀ l : List String, ((l.map (templates c)).flatten).length = 5 * l.length := by
  intro l
  induction l with
  | nil => rfl
  | cons r rs ih =>
    simp only [List.map_cons, List.flatten_cons, List.length_append, ih,
      List.length_cons]
    simp [templates]
    omega

/-- The role itself is always among its variants. -/
lemma role_mem_role_variants (role : String) : role ∈ role_variants role := by
  simp only [role_variants]
  split <;> simp

/-- There is always at least one variant. -/
lemma role_variants_length_pos (role : String) : 1 ≤ (role_variants role).length := by
  simp only [role_variants]
  split <;> (simp [List.length_append])

/-- The five templates for one variant are pairwise distinct: their lengths
differ by the distinct template-padding constants 1, 15, 10, 12, 7. -/
lemma templates_nodup (c r : String) : (templates c r).Nodup := by
  apply List.Nodup.of_map String.length
  have hsp : (" " : String).length = 1 := rfl
  have hwho : ("Who is the " : String).length = 11 := rfl
  have hof : (" of " : String).length = 4 := rfl
  have hli : (" LinkedIn" : String).length = 9 := rfl
  have hlead : (" leadership " : String).length = 12 := rfl
  have habt : (" about " : String).length = 7 := rfl
  simp only [templates, List.map_cons, List.map_nil, String.length_append,
    hsp, hwho, hof, hli, hlead, habt]
  simp only [List.nodup_cons, List.mem_cons, List.not_mem_nil, or_false,
    List.nodup_nil, and_true, List.mem_singleton]
  refine ⟨by omega, by omega, by omega, by omega, by trivial⟩

/-- Every template for the role itself survives into `build_queries`. -/
lemma templates_subset_build (c role : String) :
    templates c role ⊆ build_queries c role := by
  intro q hq
  unfold build_queries
  rw [List.mem_dedup, List.mem_flatten]
  exact ⟨templates c role, List.mem_map_of_mem _ (role_mem_role_variants role), hq⟩

/-- C6: for non-empty company and role, `build_queries` emits no duplicate
query, at most `5 × (1 + N)` queries where `N` is the number of alias-table
entries gathered for the role (direct uppercased lookup plus the
`&`-part lookups), and at least 5 queries. -/
theorem claim_c6_build_queries_bounds :
    ∀ company role, company ≠ "" → role ≠ "" →
      (build_queries company role).Nodup ∧
      (build_queries company role).length ≤ 5 * (1 + numAliases role) ∧
      5 ≤ (build_queries company role).length := by
  intro company role _ _
  refine ⟨List.nodup_dedup _, ?_, ?_⟩
  · have h1 : (build_queries company role).length ≤
        (((role_variants role).map (templates company)).flatten).length :=
      (List.dedup_sublist _).length_le
    rw [flatten_templates_length] at h1
    have h2 : 1 + numAliases role = (role_variants role).length := by
      have := role_variants_length_pos role
      unfold numAliases
      omega
    rw [h2]
    exact h1
  · have h := (List.subperm_of_subset (templates_nodup company role)
      (templates_subset_build company role)).length_le
    simpa [templates] using h

/-- C6 witness at (Acme, CEO): 15 distinct queries, `N = 2`. -/
theorem claim_c6_witness :
    (build_queries "Acme" "CEO").Nodup ∧
    (build_queries "Acme" "CEO").length ≤ 5 * (1 + numAliases "CEO") ∧
    5 ≤ (build_queries "Acme" "CEO").length :=
  claim_c6_build_queries_bounds "Acme" "CEO" (by decide) (by decide)

/-! ## Claim C3 -/

/-- No candidate's final score exceeds the cap. -/
lemma candidateScore_le_one (bu n : String) (S : List (String × ℚ)) :
    candidateScore bu n S ≤ 1 := by
  unfold candidateScore
  exact min_le_right _ _

/-- Along the scoring loop the running best score stays in [0, 1]. -/
lemma foldl_scoreStep_bounds :
    ∀ (cs : Candidates) (st : RankState),
      0 ≤ st.best_score → st.best_score ≤ 1 →
      0 ≤ (cs.foldl scoreStep st).best_score ∧
        (cs.foldl scoreStep st).best_score ≤ 1 := by
  intro cs
  induction cs with
  | nil => intro st h0 h1; exact ⟨h0, h1⟩
  | cons c rest ih =>
    intro st h0 h1
    rw [List.foldl_cons]
    apply ih
    · simp only [scoreStep]
      split
      · next hlt => exact le_of_lt (lt_of_le_of_lt h0 hlt)
      · exact h0
    · simp only [scoreStep]
      split
      · exact candidateScore_le_one _ _ _
      · exact h1

/-- The final best score of the scoring loop lies in [0, 1]. -/
lemma pickBest_score_bounds (cs : Candidates) :
    0 ≤ (pickBest cs).best_score ∧ (pickBest cs).best_score ≤ 1 :=
  foldl_scoreStep_bounds cs {} (le_refl 0) (by norm_num)

/-- Rounding to two decimals keeps a value of [0, 1] inside [0, 1]. -/
lemma round2_bounds {q : ℚ} (h0 : 0 ≤ q) (h1 : q ≤ 1) :
    0 ≤ round2 q ∧ round2 q ≤ 1 := by
  unfold round2
  constructor
  · apply div_nonneg _ (by norm_num)
    have hz : (0 : ℤ) ≤ round (q * 100) := by
      rw [round_eq]
      apply Int.floor_nonneg.mpr
      linarith
    exact_mod_cast hz
  · rw [div_le_one (by norm_num)]
    have hle : round (q * 100) ≤ round ((100 : ℚ)) := by
      rw [round_eq, round_eq]
      apply Int.floor_le_floor
      linarith
    have h100 : round ((100 : ℚ)) = 100 := by
      have hc : ((100 : ℚ)) = ((100 : ℕ) : ℚ) := by norm_num
      rw [hc, round_natCast]
      norm_num
    rw [h100] at hle
    exact_mod_cast hle

/-- C3 counterexample: the success payload (main.py lines 303-310) has no
field named `role`; the role is serialised under the key `title`. -/
theorem claim_c3_counterexample : ("role" ∈ answer_keys) = False := by
  simp [answer_keys]

/-- C3 (amended): a successful response carries the fields
first_name/last_name/title/company/source_url/confidence — the role is
returned under the key `title`, not `role` — where first_name is the first
whitespace token of the winning name, last_name is the remaining tokens
joined by single spaces (empty for a single-token name), and confidence
lies in [0, 1]. -/
theorem claim_c3_answer_shape :
    ∀ (env : Env) (company role : String) (a : Answer),
      search env company role = SearchOutcome.answer a →
      a.company = company ∧ a.title = role ∧
      (∃ best,
        (pickBest ((runLoop env (build_queries company role) []).1)).best_name
          = some best ∧
        pySplit best ≠ [] ∧
        a.first_name = (pySplit best).headD "" ∧
        a.last_name = String.intercalate " " (pySplit best).tail) ∧
      0 ≤ a.confidence ∧ a.confidence ≤ 1 ∧
      "title" ∈ answer_keys ∧ "role" ∉ answer_keys := by
  intro env company role a h
  simp only [search] at h
  by_cases he : ((runLoop env (build_queries company role) []).1).isEmpty
  · rw [if_pos he] at h
    exact absurd h (by simp)
  · rw [if_neg he] at h
    cases hb : (pickBest ((runLoop env (build_queries company role) []).1)).best_name with
    | none =>
      rw [hb] at h
      exact absurd h (by simp)
    | some best =>
      rw [hb] at h
      simp only at h
      by_cases hbe : best = ""
      · rw [if_pos hbe] at h
        exact absurd h (by simp)
      · rw [if_neg hbe] at h
        cases hsp : pySplit best with
        | nil =>
          rw [hsp] at h
          exact absurd h (by simp)
        | cons f rest =>
          rw [hsp] at h
          simp only [SearchOutcome.answer.injEq] at h
          subst h
          refine ⟨rfl, rfl, ⟨best, rfl, by simp [hsp], by simp [hsp], ?_⟩, ?_, ?_,
            by simp [answer_keys], by simp [answer_keys]⟩
          · rw [hsp]
            cases rest with
            | nil => simp [String.intercalate]
            | cons x xs => simp
          · have hs := pickBest_score_bounds ((runLoop env (build_queries company role) []).1)
            exact (round2_bounds hs.1 hs.2).1
          · have hs := pickBest_score_bounds ((runLoop env (build_queries company role) []).1)
            exact (round2_bounds hs.1 hs.2).2

set_option maxRecDepth 100000 in
/-- C3 witness: the demo environment yields a successful answer for
(Acme, CEO) whose shape the amended claim describes. -/
theorem claim_c3_witness :
    demoAnswer.company = "Acme" ∧ demoAnswer.title = "CEO" ∧
    (∃ best,
      (pickBest ((runLoop demoEnv (build_queries "Acme" "CEO") []).1)).best_name
        = some best ∧
      pySplit best ≠ [] ∧
      demoAnswer.first_name = (pySplit best).headD "" ∧
      demoAnswer.last_name = String.intercalate " " (pySplit best).tail) ∧
    0 ≤ demoAnswer.confidence ∧ demoAnswer.confidence ≤ 1 ∧
    "title" ∈ answer_keys ∧ "role" ∉ answer_keys :=
  claim_c3_answer_shape demoEnv "Acme" "CEO" demoAnswer (by with_unfolding_all rfl)

/-! ## Claim C10 -/

/-- Invariant of the accumulated candidates: every stored name is non-empty
(only truthy extractor outputs are stored), every name has at least one
contribution, and every contribution's credibility is positive. -/
def CandInv (cs : Candidates) : Prop :=
  ∀ p ∈ cs, p.1 ≠ "" ∧ p.2 ≠ [] ∧ ∀ s ∈ p.2, 0 < s.2

/-- Every credibility weight the scorer can emit is positive. -/
lemma source_credibility_pos (url : String) : 0 < source_credibility url := by
  simp only [source_credibility]
  split_ifs <;> norm_num

/-- A truthy optional string is non-empty. -/
lemma truthyStr_ne {o : Option String} {n : String}
    (h : truthyStr o = some n) : n ≠ "" := by
  cases o with
  | none => simp [truthyStr] at h
  | some s =>
    by_cases hs : s = ""
    · simp [truthyStr, hs] at h
    · simp only [truthyStr, if_neg hs, Option.some.injEq] at h
      subst h
      exact hs

/-- Appending a positive contribution under a non-empty name preserves the
candidate invariant. -/
lemma addCandidate_inv :
    ∀ (cs : Candidates) (name : String) (contrib : String × ℚ),
      CandInv cs → name ≠ "" → 0 < contrib.2 →
      CandInv (addCandidate cs name contrib) := by
  intro cs
  induction cs with
  | nil =>
    intro name contrib _ hn hc p hp
    simp only [addCandidate, List.mem_singleton] at hp
    subst hp
    refine ⟨hn, by simp, ?_⟩
    intro s hs
    simp only [List.mem_singleton] at hs
    subst hs
    exact hc
  | cons q rest ih =>
    intro name contrib hinv hn hc
    obtain ⟨qn, qs⟩ := q
    simp only [addCandidate]
    split
    · intro p hp
      rcases List.mem_cons.mp hp with hp | hp
      · subst hp
        have hq := hinv (qn, qs) (List.mem_cons_self _ _)
        refine ⟨hq.1, by simp, ?_⟩
        intro s hs
        rcases List.mem_append.mp hs with hs | hs
        · exact hq.2.2 s hs
        · simp only [List.mem_singleton] at hs
          subst hs
          exact hc
      · exact hinv p (List.mem_cons_of_mem _ hp)
    · intro p hp
      rcases List.mem_cons.mp hp with hp | hp
      · subst hp
        exact hinv (qn, qs) (List.mem_cons_self _ _)
      · exact ih name contrib (fun x hx => hinv x (List.mem_cons_of_mem _ hx)) hn hc p hp

/-- Processing a single search result preserves the candidate invariant. -/
lemma processResult_inv (env : Env) (r : SearchResult) (cs : Candidates)
    (hinv : CandInv cs) : CandInv (processResult env cs r) := by
  unfold processResult
  cases hu : getUrl r with
  | none => exact hinv
  | some url =>
    simp only
    cases hsn : (if ((truthyStr r.body).getD "") ≠ ""
        then truthyStr (env.extract ((truthyStr r.body).getD "")) else none) with
    | some name =>
      apply addCandidate_inv cs name (url, source_credibility url) hinv _
        (source_credibility_pos url)
      by_cases hb : ((truthyStr r.body).getD "") ≠ ""
      · rw [if_pos hb] at hsn
        exact truthyStr_ne hsn
      · rw [if_neg hb] at hsn
        exact absurd hsn (by simp)
    | none =>
      by_cases hpg : env.pageText url ≠ ""
      · rw [if_pos hpg]
        cases hm : truthyStr (env.extract (env.pageText url)) with
        | some name =>
          exact addCandidate_inv cs name (url, source_credibility url) hinv
            (truthyStr_ne hm) (source_credibility_pos url)
        | none => exact hinv
      · rw [if_neg hpg]
        exact hinv

/-- Folding result processing over a result list preserves the invariant. -/
lemma foldl_processResult_inv (env : Env) :
    ∀ (rs : List SearchResult) (cs : Candidates),
      CandInv cs → CandInv (rs.foldl (processResult env) cs) := by
  intro rs
  induction rs with
  | nil => intro cs h; exact h
  | cons r rest ih => intro cs h; exact ih _ (processResult_inv env r cs h)

/-- Processing one query preserves the invariant. -/
lemma processQuery_inv (env : Env) (q : String) (cs : Candidates)
    (h : CandInv cs) : CandInv (processQuery env cs q) :=
  foldl_processResult_inv env _ cs h

/-- The whole query loop preserves the invariant. -/
lemma runLoop_inv (env : Env) :
    ∀ (qs : List String) (cs : Candidates),
      CandInv cs → CandInv (runLoop env qs cs).1 := by
  intro qs
  induction qs with
  | nil => intro cs h; exact h
  | cons q rest ih =>
    intro cs h
    simp only [runLoop]
    split
    · exact processQuery_inv env q cs h
    · exact ih _ (processQuery_inv env q cs h)

/-- A candidate with at least one contribution, all of positive
credibility, gets a strictly positive final score. -/
lemma candidateScore_pos (bu n : String) (S : List (String × ℚ))
    (hne : S ≠ []) (hpos : ∀ s ∈ S, 0 < s.2) :
    0 < candidateScore bu n S := by
  have hm0 : 0 < 1 + (S.length : ℚ) * 0.1 := by positivity
  have hbase : 0 < (S.map Prod.snd).sum / (S.length : ℚ) := by
    apply div_pos
    · apply List.sum_pos
      · intro x hx
        rcases List.mem_map.mp hx with ⟨s, hs, rfl⟩
        exact hpos s hs
      · simpa using hne
    · exact_mod_cast List.length_pos.mpr hne
  simp only [candidateScore]
  apply lt_min _ one_pos
  apply mul_pos hbase
  rcases hps : pySplit n with _ | ⟨a, _ | ⟨b, _ | _⟩⟩ <;>
    simp only [hps] <;> split_ifs <;> positivity

/-- Once the running best name is set, it stays set. -/
lemma foldl_scoreStep_some :
    ∀ (cs : Candidates) (st : RankState), st.best_name.isSome →
      ((cs.foldl scoreStep st).best_name).isSome := by
  intro cs
  induction cs with
  | nil => intro st h; exact h
  | cons c rest ih =>
    intro st h
    rw [List.foldl_cons]
    apply ih
    simp only [scoreStep]
    split
    · rfl
    · exact h

/-- Along the scoring loop the best name, when set, is one of the stored
non-empty names. -/
lemma foldl_scoreStep_name_ne :
    ∀ (cs : Candidates) (st : RankState),
      (∀ p ∈ cs, p.1 ≠ "") →
      (∀ n, st.best_name = some n → n ≠ "") →
      ∀ n, ((cs.foldl scoreStep st).best_name) = some n → n ≠ "" := by
  intro cs
  induction cs with
  | nil => intro st _ h; exact h
  | cons c rest ih =>
    intro st hcs hst
    rw [List.foldl_cons]
    apply ih _ (fun p hp => hcs p (List.mem_cons_of_mem _ hp))
    intro n hn
    simp only [scoreStep] at hn
    split at hn
    · cases hn
      exact hcs c (List.mem_cons_self _ _)
    · exact hst n hn

/-- C10: whenever any candidate was accumulated the scoring loop selects a
winner, so the "Could not determine a valid name." branch is unreachable:
for every environment the endpoint never returns that error. -/
theorem claim_c10_no_valid_name_unreachable :
    ∀ (env : Env) (company role : String),
      search env company role ≠ SearchOutcome.noValidName := by
  intro env company role
  simp only [search]
  have hinv : CandInv ((runLoop env (build_queries company role) []).1) :=
    runLoop_inv env _ [] (by intro p hp; simp at hp)
  by_cases he : ((runLoop env (build_queries company role) []).1).isEmpty
  · rw [if_pos he]
    simp
  · rw [if_neg he]
    obtain ⟨c, rest, hcons⟩ :
        ∃ c rest, (runLoop env (build_queries company role) []).1 = c :: rest := by
      cases hc : (runLoop env (build_queries company role) []).1 with
      | nil => rw [hc] at he; simp at he
      | cons c rest => exact ⟨c, rest, rfl⟩
    have hc_mem : c ∈ (runLoop env (build_queries company role) []).1 := by
      rw [hcons]; exact List.mem_cons_self _ _
    have hcinv := hinv c hc_mem
    have hpos : 0 < candidateScore "" c.1 c.2 :=
      candidateScore_pos "" c.1 c.2 hcinv.2.1 hcinv.2.2
    have hst1 : (scoreStep {} c).best_name = some c.1 := by
      simp only [scoreStep]
      rw [if_pos hpos]
    have hsome : ((pickBest ((runLoop env (build_queries company role) []).1)).best_name).isSome := by
      rw [hcons]
      unfold pickBest
      rw [List.foldl_cons]
      apply foldl_scoreStep_some
      rw [hst1]
      rfl
    obtain ⟨n, hn⟩ := Option.isSome_iff_exists.mp hsome
    have hne : n ≠ "" := by
      revert hn
      rw [hcons]
      unfold pickBest
      rw [List.foldl_cons]
      intro hn
      refine foldl_scoreStep_name_ne rest (scoreStep {} c)
        (fun p hp => (hinv p (by rw [hcons]; exact List.mem_cons_of_mem _ hp)).1)
        ?_ n hn
      intro m hm
      rw [hst1] at hm
      cases hm
      exact (hinv c hc_mem).1
    rw [hn]
    simp only
    rw [if_neg hne]
    cases hsp : pySplit n <;> simp

/-! ## Claim C9 -/

end ValidPersonFinder
